import Mathlib

/-!
Verification development for the SecureBank assistant.

The frontend (React components, routing, API client) is embedded directly
from its JavaScript source.  The NLU / slot-filling engine lives in a Python
backend that is not part of this source tree; those components are modelled
from the specification document, as marked in their doc comments.
-/

namespace Bank

/-! ### Text normalizer (modelled from the spec) -/

/-- Modelled from the spec: the Text Normalizer (backend `nlu_service.py` is
not in this tree).  A character is kept in a token when alphanumeric. -/
def isTokenChar (c : Char) : Bool := c.isAlphanum

/-- Modelled from the spec: tokenizer worker.  Accumulates the current token
(reversed) and splits on every non-token character. -/
def tokenizeAux : List Char → List Char → List String
  | [], cur => if cur.isEmpty then [] else [String.mk cur.reverse]
  | c :: cs, cur =>
    if isTokenChar c then tokenizeAux cs (c.toLower :: cur)
    else if cur.isEmpty then tokenizeAux cs []
    else String.mk cur.reverse :: tokenizeAux cs []

/-- Modelled from the spec: lowercases, strips punctuation and currency
symbols, and splits an utterance into alphanumeric tokens. -/
def tokenize (s : String) : List String := tokenizeAux s.data []

/-- Whitespace characters recognized for the blank-utterance check. -/
def isWhitespaceChar (c : Char) : Bool := c = ' ' || c = '\t' || c = '\n' || c = '\r'

/-- An utterance is blank when it is empty or consists only of whitespace. -/
def isBlank (s : String) : Bool := s.data.all isWhitespaceChar

/-! ### ML intent classifier (modelled from the spec) -/

/-- Modelled from the spec: the trained linear model.  The backend training
job (`nlu_service.py --train`) is not in this tree; the model is a per-token,
per-intent weight table as the spec's linear TF-IDF classifier prescribes. -/
structure MLModel where
  weight : String → String → ℚ

/-- Modelled from the spec: the closed intent enumeration. -/
def intents : List String :=
  ["balance_inquiry", "transfer", "loan_application", "card_block", "branch_locator",
   "account_info", "transaction_history", "interest_rate", "account_opening", "unclear"]

/-- Raw linear score of an intent: sum of the token weights. -/
def rawScore (m : MLModel) (toks : List String) (i : String) : ℚ :=
  (toks.map (fun t => m.weight t i)).sum

/-- Scores are clamped at zero before probability normalization. -/
def clampedScore (m : MLModel) (toks : List String) (i : String) : ℚ :=
  max (rawScore m toks i) 0

/-- Normalization mass: total clamped score over the intent set. -/
def totalScore (m : MLModel) (toks : List String) : ℚ :=
  (intents.map (clampedScore m toks)).sum

/-- Modelled from the spec: calibrated probability of one intent.  A zero
mass (e.g. an utterance with no informative token) yields the uniform
distribution. -/
def prob (m : MLModel) (toks : List String) (i : String) : ℚ :=
  if totalScore m toks = 0 then 1 / (intents.length : ℚ)
  else clampedScore m toks i / totalScore m toks

/-- The full probability distribution over the closed intent set. -/
def probDist (m : MLModel) (toks : List String) : List (String × ℚ) :=
  intents.map (fun i => (i, prob m toks i))

/-- Highest-probability (intent, probability) pair of a distribution. -/
def topPair (dist : List (String × ℚ)) : String × ℚ :=
  dist.foldl (fun b p => if b.2 < p.2 then p else b) ("unclear", 0)

/-! ### Rule-based matcher and decision arbiter (modelled from the spec) -/

/-- Modelled from the spec: ordered keyword rules, first match wins. -/
def rules : List (String × String) :=
  [("balance", "balance_inquiry"), ("transfer", "transfer"), ("send", "transfer"),
   ("loan", "loan_application"), ("block", "card_block"), ("branch", "branch_locator"),
   ("statement", "transaction_history"), ("interest", "interest_rate")]

/-- Modelled from the spec: the rule matcher; `none` is the designated
no-match sentinel, it never fails. -/
def ruleMatch (toks : List String) : Option String :=
  (rules.find? (fun r => toks.contains r.1)).map Prod.snd

/-- The classification method tag. -/
inductive Method
  | ml
  | rule
  | fallback
  deriving DecidableEq, Repr

/-- The result record produced for every utterance. -/
structure ClassificationResult where
  intent : String
  confidence : ℚ
  method : Method
  all_probabilities : List (String × ℚ)
  deriving DecidableEq, Repr

/-- Modelled from the spec: confidence threshold, default 0.8. -/
def threshold : ℚ := 4 / 5

/-- Modelled from the spec: fixed moderate confidence of a rule match. -/
def ruleConfidence : ℚ := 3 / 5

/-- Modelled from the spec: lowest confidence, used by the fallback tier. -/
def fallbackConfidence : ℚ := 3 / 10

/-- Top ML confidence for an utterance, as the arbiter sees it. -/
def mlTop (m : MLModel) (u : String) : ℚ :=
  (topPair (probDist m (tokenize u))).2

/-- Modelled from the spec: `classify` runs the normalizer, the ML
classifier and the rule matcher, and arbitrates via the three-tier
cascade (ml above threshold, else rule, else fallback). -/
def classify (m : MLModel) (u : String) : ClassificationResult :=
  let toks := tokenize u
  let dist := probDist m toks
  let top := topPair dist
  if threshold ≤ top.2 then ⟨top.1, top.2, Method.ml, dist⟩
  else
    match ruleMatch toks with
    | some i => ⟨i, ruleConfidence, Method.rule, dist⟩
    | none => ⟨"unclear", fallbackConfidence, Method.fallback, dist⟩

/-! ### Helper lemmas about the distribution -/

theorem list_sum_map_div (l : List String) (f : String → ℚ) (T : ℚ) :
    (l.map (fun i => f i / T)).sum = (l.map f).sum / T := by
  induction l with
  | nil => simp
  | cons a t ih => simp [ih, add_div]

theorem list_mem_le_sum (l : List ℚ) (h : ∀ x ∈ l, 0 ≤ x) : ∀ x ∈ l, x ≤ l.sum := by
  induction l with
  | nil => simp
  | cons a t ih =>
    intro x hx
    rcases List.mem_cons.mp hx with rfl | hx
    · have ht : 0 ≤ t.sum := List.sum_nonneg (fun y hy => h y (List.mem_cons_of_mem _ hy))
      have : x ≤ x + t.sum := le_add_of_nonneg_right ht
      simpa using this
    · have ha : 0 ≤ a := h a (List.mem_cons_self a t)
      have := ih (fun y hy => h y (List.mem_cons_of_mem _ hy)) x hx
      calc x ≤ t.sum := this
        _ ≤ a + t.sum := le_add_of_nonneg_left ha
        _ = (a :: t).sum := by simp

theorem clampedScore_nonneg (m : MLModel) (toks : List String) (i : String) :
    0 ≤ clampedScore m toks i := le_max_right _ _

theorem totalScore_nonneg (m : MLModel) (toks : List String) :
    0 ≤ totalScore m toks := by
  apply List.sum_nonneg
  intro x hx
  obtain ⟨i, _, rfl⟩ := List.mem_map.mp hx
  exact clampedScore_nonneg m toks i

theorem prob_nonneg (m : MLModel) (toks : List String) (i : String) :
    0 ≤ prob m toks i := by
  unfold prob
  split
  · norm_num [intents]
  · exact div_nonneg (clampedScore_nonneg m toks i) (totalScore_nonneg m toks)

theorem prob_le_one (m : MLModel) (toks : List String) (i : String)
    (hi : i ∈ intents) : prob m toks i ≤ 1 := by
  unfold prob
  split
  · norm_num [intents]
  · rename_i h
    have hpos : 0 < totalScore m toks :=
      lt_of_le_of_ne (totalScore_nonneg m toks) (Ne.symm h)
    rw [div_le_one hpos]
    exact list_mem_le_sum _
      (by
        intro x hx
        obtain ⟨j, _, rfl⟩ := List.mem_map.mp hx
        exact clampedScore_nonneg m toks j)
      _ (List.mem_map_of_mem _ hi)

theorem probDist_sum_one (m : MLModel) (toks : List String) :
    ((probDist m toks).map Prod.snd).sum = 1 := by
  unfold probDist
  rw [List.map_map]
  by_cases h : totalScore m toks = 0
  · simp [Function.comp, prob, h, intents]
    norm_num
  · have : (intents.map (Prod.snd ∘ fun i => (i, prob m toks i))) =
        intents.map (fun i => clampedScore m toks i / totalScore m toks) := by
      apply List.map_congr_left
      intro i _
      simp [Function.comp, prob, h]
    rw [this, list_sum_map_div]
    exact div_self h

theorem probDist_keys (m : MLModel) (toks : List String) :
    (probDist m toks).map Prod.fst = intents := by
  simp only [probDist, List.map_map]
  exact List.map_id intents

theorem probDist_mem_bounds (m : MLModel) (toks : List String) :
    ∀ p ∈ probDist m toks, 0 ≤ p.2 ∧ p.2 ≤ 1 := by
  intro p hp
  obtain ⟨i, hi, rfl⟩ := List.mem_map.mp hp
  exact ⟨prob_nonneg m toks i, prob_le_one m toks i hi⟩

theorem topPair_snd_le (dist : List (String × ℚ)) (c : ℚ) (b : String × ℚ)
    (hb : b.2 ≤ c) (h : ∀ p ∈ dist, p.2 ≤ c) :
    (dist.foldl (fun b p => if b.2 < p.2 then p else b) b).2 ≤ c := by
  induction dist generalizing b with
  | nil => simpa using hb
  | cons a t ih =>
    simp only [List.foldl_cons]
    apply ih
    · split
      · exact h a (List.mem_cons_self a t)
      · exact hb
    · intro p hp
      exact h p (List.mem_cons_of_mem _ hp)

theorem topPair_snd_nonneg (dist : List (String × ℚ)) (b : String × ℚ)
    (hb : 0 ≤ b.2) :
    0 ≤ (dist.foldl (fun b p => if b.2 < p.2 then p else b) b).2 := by
  induction dist generalizing b with
  | nil => simpa using hb
  | cons a t ih =>
    simp only [List.foldl_cons]
    apply ih
    split
    · rename_i hlt
      exact le_of_lt (lt_of_le_of_lt hb hlt)
    · exact hb

/-! ### Blank utterances -/

theorem whitespace_not_token (c : Char) (h : isWhitespaceChar c = true) :
    isTokenChar c = false := by
  simp only [isWhitespaceChar, Bool.or_eq_true, decide_eq_true_eq] at h
  rcases h with ((h | h) | h) | h <;> subst h <;> decide

theorem tokenizeAux_blank (l : List Char) (h : ∀ c ∈ l, isWhitespaceChar c = true) :
    tokenizeAux l [] = [] := by
  induction l with
  | nil => rfl
  | cons c cs ih =>
    have hc := whitespace_not_token c (h c (List.mem_cons_self c cs))
    simp only [tokenizeAux, hc, Bool.false_eq_true, if_false, List.isEmpty_nil, if_true]
    exact ih (fun d hd => h d (List.mem_cons_of_mem _ hd))

theorem tokenize_blank (s : String) (h : isBlank s = true) : tokenize s = [] :=
  tokenizeAux_blank s.data (by simpa [isBlank, List.all_eq_true] using h)

theorem clampedScore_nil (m : MLModel) (i : String) : clampedScore m [] i = 0 := by
  simp [clampedScore, rawScore]

theorem totalScore_nil (m : MLModel) : totalScore m [] = 0 := by
  unfold totalScore
  rw [List.map_congr_left (fun i _ => clampedScore_nil m i)]
  simp

theorem prob_nil (m : MLModel) (i : String) : prob m [] i = 1 / 10 := by
  simp [prob, totalScore_nil, intents]

theorem mlTop_blank (m : MLModel) (u : String) (h : isBlank u = true) :
    mlTop m u ≤ 1 / 10 := by
  unfold mlTop
  rw [tokenize_blank u h]
  apply topPair_snd_le _ (1 / 10) _ (by norm_num)
  intro p hp
  obtain ⟨i, hi, rfl⟩ := List.mem_map.mp hp
  simp [prob_nil]

theorem ruleMatch_nil : ruleMatch [] = none := rfl

/-! ### Decision arbiter claims -/

/-- C1: for every utterance the final method is one of ml, rule, fallback;
`ml` is used exactly when the ML top confidence reaches the threshold,
`rule` only below threshold with a rule match, and `fallback` only below
threshold with no rule match. -/
theorem classify_method_policy (m : MLModel) (u : String) :
    ((classify m u).method = Method.ml ∨ (classify m u).method = Method.rule ∨
      (classify m u).method = Method.fallback) ∧
    ((classify m u).method = Method.ml ↔ threshold ≤ mlTop m u) ∧
    ((classify m u).method = Method.rule ↔
      mlTop m u < threshold ∧ (ruleMatch (tokenize u)).isSome = true) ∧
    ((classify m u).method = Method.fallback ↔
      mlTop m u < threshold ∧ ruleMatch (tokenize u) = none) := by
  unfold mlTop
  by_cases h : threshold ≤ (topPair (probDist m (tokenize u))).2
  · have h2 : ¬ (topPair (probDist m (tokenize u))).2 < threshold := not_lt.mpr h
    simp [classify, h, h2]
  · have h2 : (topPair (probDist m (tokenize u))).2 < threshold := not_le.mp h
    cases hr : ruleMatch (tokenize u) with
    | some i => simp [classify, h, hr, h2]
    | none => simp [classify, h, hr, h2]

/-- C2: for every utterance, the confidence lies in `[0,1]` and the
probability mapping covers the fixed intent set and sums to exactly 1. -/
theorem classify_confidence_and_distribution (m : MLModel) (u : String) :
    0 ≤ (classify m u).confidence ∧ (classify m u).confidence ≤ 1 ∧
    ((classify m u).all_probabilities.map Prod.snd).sum = 1 ∧
    (classify m u).all_probabilities.map Prod.fst = intents := by
  have hsum := probDist_sum_one m (tokenize u)
  have hkeys := probDist_keys m (tokenize u)
  have hb := probDist_mem_bounds m (tokenize u)
  by_cases h : threshold ≤ (topPair (probDist m (tokenize u))).2
  · have hc : classify m u =
        ⟨(topPair (probDist m (tokenize u))).1, (topPair (probDist m (tokenize u))).2,
          Method.ml, probDist m (tokenize u)⟩ := by
      simp [classify, h]
    rw [hc]
    refine ⟨?_, ?_, hsum, hkeys⟩
    · exact topPair_snd_nonneg _ _ le_rfl
    · exact topPair_snd_le _ 1 _ (by norm_num) (fun p hp => (hb p hp).2)
  · cases hr : ruleMatch (tokenize u) with
    | some i =>
      have hc : classify m u = ⟨i, ruleConfidence, Method.rule, probDist m (tokenize u)⟩ := by
        simp [classify, h, hr]
      rw [hc]
      refine ⟨by norm_num [ruleConfidence], by norm_num [ruleConfidence], hsum, hkeys⟩
    | none =>
      have hc : classify m u =
          ⟨"unclear", fallbackConfidence, Method.fallback, probDist m (tokenize u)⟩ := by
        simp [classify, h, hr]
      rw [hc]
      refine ⟨by norm_num [fallbackConfidence], by norm_num [fallbackConfidence], hsum, hkeys⟩

/-! ### Entity extractor (modelled from the spec) -/

/-- Typed entity span. -/
structure Entity where
  label : String
  value : String
  deriving DecidableEq, Repr

/-- Closed card-type vocabulary. -/
def cardTypes : List String := ["credit", "debit", "atm"]

/-- Closed account-type vocabulary. -/
def accountTypes : List String := ["savings", "current"]

/-- Closed loan-type vocabulary. -/
def loanTypes : List String := ["home", "car", "personal"]

/-- A token made of digits only. -/
def isNumericToken (t : String) : Bool := !t.isEmpty && t.data.all Char.isDigit

/-- Modelled from the spec: per-token recognizer.  Closed-vocabulary lookups
for card, account and loan types; digit runs of length at least 8 are
account numbers, shorter numbers are amounts.  An unmatched token yields no
entity, never an error. -/
def tokenEntity (t : String) : Option Entity :=
  if cardTypes.contains t then some ⟨"CARD_TYPE", t⟩
  else if accountTypes.contains t then some ⟨"ACCOUNT_TYPE", t⟩
  else if loanTypes.contains t then some ⟨"LOAN_TYPE", t⟩
  else if isNumericToken t then
    if 8 ≤ t.length then some ⟨"ACCOUNT_NUMBER", t⟩ else some ⟨"AMOUNT", t⟩
  else none

/-- Modelled from the spec: recognizers run independently, outputs unioned. -/
def extractEntities (toks : List String) : List Entity := toks.filterMap tokenEntity

/-! ### Slot schemas (modelled from the spec) -/

/-- One required slot: name, required entity type, prompt text. -/
structure Slot where
  name : String
  etype : String
  question : String
  deriving DecidableEq, Repr

/-- Modelled from the spec: the static intent to required-slot schema. -/
def requiredSlots : String → List Slot
  | "transfer" =>
      [⟨"amount", "AMOUNT", "How much would you like to transfer?"⟩,
       ⟨"target_account", "ACCOUNT_NUMBER", "Which account should receive the money?"⟩]
  | "loan_application" =>
      [⟨"loan_type", "LOAN_TYPE", "What type of loan do you need?"⟩,
       ⟨"amount", "AMOUNT", "What loan amount do you need?"⟩]
  | "card_block" =>
      [⟨"card_type", "CARD_TYPE", "Which card should be blocked?"⟩]
  | "account_opening" =>
      [⟨"account_type", "ACCOUNT_TYPE", "Which account type would you like to open?"⟩]
  | _ => []

theorem requiredSlots_names_nodup (i : String) :
    (((requiredSlots i).map Slot.name)).Nodup := by
  rw [requiredSlots.eq_def]
  split <;> decide

/-! ### Slot-filling dialogue manager (modelled from the spec) -/

/-- Per-session slot-filling state. -/
structure SlotState where
  activeIntent : Option String
  filled : List (String × String)
  pending : List Slot
  turnCount : Nat
  deriving DecidableEq, Repr

/-- The empty, inactive state. -/
def SlotState.init : SlotState := ⟨none, [], [], 0⟩

/-- Modelled from the spec: match extracted entities against a slot list by
entity type; matched slots are filled, unmatched slots stay pending. -/
def fillSlots : List Slot → List Entity → List (String × String) × List Slot
  | [], _ => ([], [])
  | s :: rest, ents =>
    let r := fillSlots rest ents
    match ents.find? (fun e => e.label == s.etype) with
    | some e => ((s.name, e.value) :: r.1, r.2)
    | none => (r.1, s :: r.2)

/-- What the manager tells the caller after a turn. -/
inductive Directive
  | answer
  | promptSlots (missing : List Slot)
  | complete (intent : String) (filled : List (String × String))
  deriving DecidableEq, Repr

/-- Whether a directive hands a completed request to fulfillment. -/
def Directive.isComplete : Directive → Bool
  | Directive.complete _ _ => true
  | _ => false

/-- Modelled from the spec: margin by which a new unrelated intent must
exceed the threshold to override an in-progress fill. -/
def overrideMargin : ℚ := 1 / 10

/-- Override confidence bar for discarding a pending fill. -/
def overrideThreshold : ℚ := threshold + overrideMargin

/-- Modelled from the spec: start a fill for a high-confidence intent.
Slots already satisfied by entities of the triggering utterance are filled;
with nothing left pending the turn completes immediately and the state
resets. -/
def activate (cr : ClassificationResult) (ents : List Entity) (turns : Nat) :
    SlotState × Directive :=
  let r := fillSlots (requiredSlots cr.intent) ents
  if r.2.isEmpty then (SlotState.init, Directive.complete cr.intent r.1)
  else (⟨some cr.intent, r.1, r.2, turns + 1⟩, Directive.promptSlots r.2)

/-- Modelled from the spec: one step of the slot-filling state machine.
Idle states activate on a high-confidence intent; active states merge the
new entities into the fill, complete and reset when nothing is pending, and
an unrelated intent above the override bar discards the pending fill. -/
def managerStep (st : SlotState) (cr : ClassificationResult) (ents : List Entity) :
    SlotState × Directive :=
  match st.activeIntent with
  | none =>
    if threshold ≤ cr.confidence then activate cr ents st.turnCount
    else (st, Directive.answer)
  | some i =>
    if cr.intent ≠ i ∧ overrideThreshold ≤ cr.confidence then activate cr ents st.turnCount
    else
      let r := fillSlots st.pending ents
      if r.2.isEmpty then (SlotState.init, Directive.complete i (st.filled ++ r.1))
      else (⟨some i, st.filled ++ r.1, r.2, st.turnCount + 1⟩, Directive.promptSlots r.2)

/-- The structured result of one conversational turn. -/
structure TurnResult where
  classification : ClassificationResult
  directive : Directive
  deriving DecidableEq, Repr

/-- Modelled from the spec: `processTurn` classifies the utterance, extracts
entities, and drives the dialogue manager. -/
def processTurn (m : MLModel) (st : SlotState) (u : String) : SlotState × TurnResult :=
  let cr := classify m u
  let ents := extractEntities (tokenize u)
  let r := managerStep st cr ents
  (r.1, ⟨cr, r.2⟩)

/-- States reachable from the empty state by dialogue-manager steps. -/
inductive Reachable : SlotState → Prop
  | base : Reachable SlotState.init
  | step (s : SlotState) (cr : ClassificationResult) (ents : List Entity) :
      Reachable s → Reachable (managerStep s cr ents).1

/-! ### Slot-filling invariants -/

theorem fillSlots_perm (slots : List Slot) (ents : List Entity) :
    ((fillSlots slots ents).1.map Prod.fst ++ (fillSlots slots ents).2.map Slot.name).Perm
      (slots.map Slot.name) := by
  induction slots with
  | nil => simp [fillSlots]
  | cons s rest ih =>
    cases h : ents.find? (fun e => e.label == s.etype) with
    | some e =>
      simp only [fillSlots, h, List.map_cons, List.cons_append, List.map_cons]
      exact ih.cons s.name
    | none =>
      simp only [fillSlots, h, List.map_cons]
      exact List.perm_middle.trans (ih.cons s.name)

/-- The partition invariant of an active slot-filling state. -/
def SlotInv (s : SlotState) : Prop :=
  ∀ i, s.activeIntent = some i →
    (s.filled.map Prod.fst ++ s.pending.map Slot.name).Perm
      ((requiredSlots i).map Slot.name) ∧
    s.pending ≠ []

theorem slotInv_init : SlotInv SlotState.init := by
  intro i h
  simp [SlotState.init] at h

theorem activate_inv (cr : ClassificationResult) (ents : List Entity) (t : Nat) :
    SlotInv (activate cr ents t).1 := by
  simp only [activate]
  split
  · exact slotInv_init
  · rename_i hne
    intro i hi
    obtain rfl : cr.intent = i := by simpa using hi
    refine ⟨fillSlots_perm _ _, ?_⟩
    simpa using hne

theorem managerStep_inv (st : SlotState) (cr : ClassificationResult) (ents : List Entity)
    (hst : SlotInv st) : SlotInv (managerStep st cr ents).1 := by
  cases hact : st.activeIntent with
  | none =>
    simp only [managerStep, hact]
    split
    · exact activate_inv cr ents st.turnCount
    · intro i hi
      exact hst i (hact ▸ hi)
  | some i =>
    simp only [managerStep, hact]
    split
    · exact activate_inv cr ents st.turnCount
    · split
      · exact slotInv_init
      · rename_i hempty
        intro j hj
        simp only [Option.some.injEq] at hj
        subst hj
        have h1 := fillSlots_perm st.pending ents
        have h2 := (hst i hact).1
        refine ⟨?_, by simpa using hempty⟩
        have e1 : (st.filled ++ (fillSlots st.pending ents).1).map Prod.fst ++
            (fillSlots st.pending ents).2.map Slot.name =
            st.filled.map Prod.fst ++
              ((fillSlots st.pending ents).1.map Prod.fst ++
               (fillSlots st.pending ents).2.map Slot.name) := by
          simp [List.map_append]
        rw [e1]
        exact (h1.append_left (st.filled.map Prod.fst)).trans h2

theorem reachable_inv (s : SlotState) (hs : Reachable s) : SlotInv s := by
  induction hs with
  | base => exact slotInv_init
  | step s cr ents _ ih => exact managerStep_inv s cr ents ih

theorem activate_complete_resets (cr : ClassificationResult) (ents : List Entity) (t : Nat)
    (h : (activate cr ents t).2.isComplete = true) : (activate cr ents t).1 = SlotState.init := by
  simp only [activate] at h ⊢
  split at h
  · rename_i hc
    simp [hc]
  · rename_i hc
    simp [Directive.isComplete] at h

theorem managerStep_complete_resets (s : SlotState) (cr : ClassificationResult)
    (ents : List Entity) (h : (managerStep s cr ents).2.isComplete = true) :
    (managerStep s cr ents).1 = SlotState.init := by
  cases hact : s.activeIntent with
  | none =>
    simp only [managerStep, hact] at h ⊢
    by_cases hc : threshold ≤ cr.confidence
    · rw [if_pos hc] at h ⊢
      exact activate_complete_resets cr ents s.turnCount h
    · rw [if_neg hc] at h ⊢
      simp [Directive.isComplete] at h
  | some i =>
    simp only [managerStep, hact] at h ⊢
    by_cases hc : cr.intent ≠ i ∧ overrideThreshold ≤ cr.confidence
    · rw [if_pos hc] at h ⊢
      exact activate_complete_resets cr ents s.turnCount h
    · rw [if_neg hc] at h ⊢
      by_cases hc2 : (fillSlots s.pending ents).2.isEmpty = true
      · rw [if_pos hc2]
      · rw [if_neg hc2] at h ⊢
        simp [Directive.isComplete] at h

/-- C3: in every reachable slot-filling state with an active intent, the
filled and pending slot names are disjoint and together are exactly the
intent's required-slot set; a stored active state never keeps an empty
pending set (emptying it completes the turn instead), and a completed turn
resets the state to empty/inactive. -/
theorem slot_state_partition (s : SlotState) (hs : Reachable s) :
    (∀ i, s.activeIntent = some i →
      (s.filled.map Prod.fst).Disjoint (s.pending.map Slot.name) ∧
      (s.filled.map Prod.fst ++ s.pending.map Slot.name).Perm
        ((requiredSlots i).map Slot.name) ∧
      s.pending ≠ []) ∧
    (∀ cr ents, (managerStep s cr ents).2.isComplete = true →
      (managerStep s cr ents).1 = SlotState.init) := by
  have hinv := reachable_inv s hs
  refine ⟨?_, fun cr ents h => managerStep_complete_resets s cr ents h⟩
  intro i hi
  obtain ⟨hperm, hne⟩ := hinv i hi
  have hnodup : (s.filled.map Prod.fst ++ s.pending.map Slot.name).Nodup :=
    hperm.nodup_iff.mpr (requiredSlots_names_nodup i)
  exact ⟨List.disjoint_of_nodup_append hnodup, hperm, hne⟩

/-- Concrete high-confidence transfer classification for exercising the
dialogue manager. -/
def crTransferDemo : ClassificationResult := ⟨"transfer", 9 / 10, Method.ml, []⟩

/-- Awaiting-slots state after one turn: transfer intent, amount filled,
target account pending. -/
def awaitingTransferDemo : SlotState :=
  (managerStep SlotState.init crTransferDemo [⟨"AMOUNT", "5000"⟩]).1

theorem awaitingTransferDemo_eq :
    awaitingTransferDemo =
      ⟨some "transfer", [("amount", "5000")],
       [⟨"target_account", "ACCOUNT_NUMBER", "Which account should receive the money?"⟩],
       1⟩ := by
  unfold awaitingTransferDemo managerStep
  rw [if_pos (show threshold ≤ crTransferDemo.confidence by
    norm_num [threshold, crTransferDemo])]
  rfl

theorem slot_state_partition_witness :
    (∀ i, awaitingTransferDemo.activeIntent = some i →
      (awaitingTransferDemo.filled.map Prod.fst).Disjoint
        (awaitingTransferDemo.pending.map Slot.name) ∧
      (awaitingTransferDemo.filled.map Prod.fst ++
        awaitingTransferDemo.pending.map Slot.name).Perm
        ((requiredSlots i).map Slot.name) ∧
      awaitingTransferDemo.pending ≠ []) ∧
    (∀ cr ents, (managerStep awaitingTransferDemo cr ents).2.isComplete = true →
      (managerStep awaitingTransferDemo cr ents).1 = SlotState.init) :=
  slot_state_partition awaitingTransferDemo
    (Reachable.step SlotState.init crTransferDemo [⟨"AMOUNT", "5000"⟩] Reachable.base)

/-- C7: once a slot is filled in an active session, a later turn whose
entities do not mention that slot's entity type, and which neither
completes the fill nor overrides the active intent, leaves the slot
filled. -/
theorem filled_slot_persists (s : SlotState) (cr : ClassificationResult) (ents : List Entity)
    (i : String) (hi : s.activeIntent = some i)
    (n v : String) (hmem : (n, v) ∈ s.filled)
    (_hment : ∀ e ∈ ents, ∀ sl ∈ requiredSlots i, sl.name = n → e.label ≠ sl.etype)
    (hnov : ¬ (cr.intent ≠ i ∧ overrideThreshold ≤ cr.confidence))
    (hnc : (managerStep s cr ents).2.isComplete = false) :
    (n, v) ∈ (managerStep s cr ents).1.filled := by
  simp only [managerStep, hi] at hnc ⊢
  rw [if_neg hnov] at hnc ⊢
  by_cases hc2 : (fillSlots s.pending ents).2.isEmpty = true
  · rw [if_pos hc2] at hnc
    simp [Directive.isComplete] at hnc
  · rw [if_neg hc2]
    exact List.mem_append_left _ hmem

/-- Low-confidence follow-up classification of the same intent. -/
def crFollowUpDemo : ClassificationResult := ⟨"transfer", 1 / 2, Method.rule, []⟩

theorem filled_slot_persists_witness :
    ("amount", "5000") ∈ (managerStep awaitingTransferDemo crFollowUpDemo []).1.filled :=
  filled_slot_persists awaitingTransferDemo crFollowUpDemo [] "transfer"
    (by simp [awaitingTransferDemo_eq]) "amount" "5000"
    (by simp [awaitingTransferDemo_eq])
    (by simp) (by simp [crFollowUpDemo])
    (by rw [awaitingTransferDemo_eq]
        simp [managerStep, crFollowUpDemo, fillSlots, Directive.isComplete])

/-- C4: a blank (empty or whitespace-only) utterance makes both `classify`
and `processTurn` produce the designated lowest-confidence fallback result;
both are total functions, so no exception can propagate. -/
theorem blank_utterance_fallback (m : MLModel) (st : SlotState) (u : String)
    (h : isBlank u = true) :
    classify m u = ⟨"unclear", fallbackConfidence, Method.fallback, probDist m []⟩ ∧
    (processTurn m st u).2.classification =
      ⟨"unclear", fallbackConfidence, Method.fallback, probDist m []⟩ ∧
    fallbackConfidence ≤ ruleConfidence ∧ fallbackConfidence < threshold := by
  have ht := tokenize_blank u h
  have htop : (topPair (probDist m (tokenize u))).2 ≤ 1 / 10 := by
    rw [ht]
    apply topPair_snd_le _ (1 / 10) _ (by norm_num)
    intro p hp
    obtain ⟨i, _, rfl⟩ := List.mem_map.mp hp
    simp [prob_nil]
  have hlt : ¬ threshold ≤ (topPair (probDist m (tokenize u))).2 := by
    intro hcon
    have := le_trans hcon htop
    norm_num [threshold] at this
  have hc : classify m u =
      ⟨"unclear", fallbackConfidence, Method.fallback, probDist m []⟩ := by
    rw [ht] at hlt
    simp only [classify, ht]
    rw [if_neg hlt, ruleMatch_nil]
  have hp : (processTurn m st u).2.classification = classify m u := by
    simp only [processTurn]
  refine ⟨hc, ?_, ?_, ?_⟩
  · rw [hp, hc]
  · norm_num [fallbackConfidence, ruleConfidence]
  · norm_num [fallbackConfidence, threshold]

/-- Trained model with all weights zero, used as a concrete instance. -/
def zeroModel : MLModel := ⟨fun _ _ => 0⟩

theorem blank_utterance_fallback_witness :
    classify zeroModel "   " =
      ⟨"unclear", fallbackConfidence, Method.fallback, probDist zeroModel []⟩ ∧
    (processTurn zeroModel SlotState.init "   ").2.classification =
      ⟨"unclear", fallbackConfidence, Method.fallback, probDist zeroModel []⟩ ∧
    fallbackConfidence ≤ ruleConfidence ∧ fallbackConfidence < threshold :=
  blank_utterance_fallback zeroModel SlotState.init "   " (by
    simp [isBlank, isWhitespaceChar])

/-! ### Engine lifecycle (modelled from the spec) -/

/-- The live engine: the immutable trained model plus the session store. -/
structure Engine where
  model : MLModel
  sessions : List (String × SlotState)

/-- Modelled from the spec: `classify` is stateless; it reads the trained
model only and leaves the session store untouched. -/
def classifyOp (e : Engine) (u : String) : ClassificationResult × Engine :=
  (classify e.model u, e)

/-- C8: two classify calls on the same utterance with no state mutation in
between return identical results (same intent, confidence, method and
probability distribution), and neither call mutates the engine state. -/
theorem classify_idempotent (e : Engine) (u : String) :
    ((classifyOp e u).1.intent = (classifyOp (classifyOp e u).2 u).1.intent ∧
     (classifyOp e u).1.confidence = (classifyOp (classifyOp e u).2 u).1.confidence ∧
     (classifyOp e u).1.method = (classifyOp (classifyOp e u).2 u).1.method ∧
     (classifyOp e u).1.all_probabilities =
       (classifyOp (classifyOp e u).2 u).1.all_probabilities) ∧
    (classifyOp e u).2 = e :=
  ⟨⟨rfl, rfl, rfl, rfl⟩, rfl⟩

/-- Modelled from the spec: the trained artifact produced by the offline
training job; `none` stands for a missing or unloadable artifact. -/
structure ModelArtifact where
  weight : String → String → ℚ

/-- Startup failure condition. -/
inductive InitError
  | modelUnavailable
  deriving DecidableEq, Repr

/-- Modelled from the spec: initialization fails fatally when the trained
artifact is missing or failed to load; it never falls back to rules. -/
def initEngine : Option ModelArtifact → Except InitError Engine
  | none => Except.error InitError.modelUnavailable
  | some a => Except.ok ⟨⟨a.weight⟩, []⟩

/-- Serving layer: only a successfully initialized engine answers. -/
def serveClassify (r : Except InitError Engine) (u : String) : Option ClassificationResult :=
  match r with
  | Except.ok e => some (classify e.model u)
  | Except.error _ => none

/-- C5: a missing or unloadable model artifact is a fatal initialization
error; the engine then serves no request at all (in particular it never
silently answers from the rule matcher), while any loaded artifact
initializes the engine with exactly that model. -/
theorem missing_model_refuses_service :
    initEngine none = Except.error InitError.modelUnavailable ∧
    (∀ u, serveClassify (initEngine none) u = none) ∧
    (∀ a : ModelArtifact, initEngine (some a) = Except.ok ⟨⟨a.weight⟩, []⟩) :=
  ⟨rfl, fun _ => rfl, fun _ => rfl⟩

/-! ### Conversation context display (from `ChatWindow.jsx`) -/

/-- Bot turn payload as consumed by `handleSendMessage`. -/
structure BotMessage where
  intent : Option String
  confidence : ℚ
  entities : List Entity
  needs_slot_filling : Bool
  pending_slots : List String
  filled_slots : List (String × String)

/-- Conversation context record kept for the context display. -/
structure ConversationFlow where
  intent : String
  confidence : ℚ
  entities : List Entity
  deriving DecidableEq, Repr

/-- JavaScript truthiness of a nullable string: null and the empty string
are falsy. -/
def jsTruthyStr : Option String → Bool
  | none => false
  | some s => s != ""

/-- Embedded from `handleSendMessage` in `ChatWindow.jsx`: the conversation
context is replaced when `response.bot.intent` is truthy and
`response.bot.confidence > 0.8`, and kept unchanged otherwise. -/
def updateConversationFlow (prev : Option ConversationFlow) (bot : BotMessage) :
    Option ConversationFlow :=
  if jsTruthyStr bot.intent = true ∧ (4 / 5 : ℚ) < bot.confidence then
    some ⟨bot.intent.getD "", bot.confidence, bot.entities⟩
  else prev

/-- Bot message with an intent present and confidence exactly 0.8. -/
def botAtThreshold : BotMessage := ⟨some "transfer", 4 / 5, [], false, [], []⟩

/-- C6 counterexample: at confidence exactly 0.8 with an intent present the
claim predicts the context display is replaced, but the code keeps the
previous context because its comparison `> 0.8` is strict. -/
theorem conversation_context_counterexample :
    jsTruthyStr botAtThreshold.intent = true ∧
    botAtThreshold.confidence = 4 / 5 ∧
    updateConversationFlow none botAtThreshold = none ∧
    ¬ (jsTruthyStr botAtThreshold.intent = true ∧
        (4 / 5 : ℚ) ≤ botAtThreshold.confidence →
      updateConversationFlow none botAtThreshold = some ⟨"transfer", 4 / 5, []⟩) := by
  have hupd : updateConversationFlow none botAtThreshold = none := by
    unfold updateConversationFlow
    rw [if_neg]
    rintro ⟨-, hlt⟩
    exact absurd hlt (by norm_num [botAtThreshold])
  refine ⟨by decide, rfl, hupd, ?_⟩
  intro hcl
  have := hcl ⟨by decide, by norm_num [botAtThreshold]⟩
  rw [hupd] at this
  exact Option.noConfusion this

/-- C6 (amended): the context display is replaced exactly when the turn has
a truthy intent and confidence strictly above 0.8; with lower or equal
confidence (or no intent) it is retained, and the update is independent of
the slot-filling fields of the response. -/
theorem conversation_context_update_policy (prev : Option ConversationFlow)
    (bot bot2 : BotMessage)
    (hsame : bot2.intent = bot.intent ∧ bot2.confidence = bot.confidence ∧
      bot2.entities = bot.entities) :
    (jsTruthyStr bot.intent = true ∧ (4 / 5 : ℚ) < bot.confidence →
      updateConversationFlow prev bot =
        some ⟨bot.intent.getD "", bot.confidence, bot.entities⟩) ∧
    (¬ (jsTruthyStr bot.intent = true ∧ (4 / 5 : ℚ) < bot.confidence) →
      updateConversationFlow prev bot = prev) ∧
    updateConversationFlow prev bot2 = updateConversationFlow prev bot := by
  obtain ⟨h1, h2, h3⟩ := hsame
  refine ⟨fun h => ?_, fun h => ?_, ?_⟩
  · unfold updateConversationFlow
    rw [if_pos h]
  · unfold updateConversationFlow
    rw [if_neg h]
  · unfold updateConversationFlow
    rw [h1, h2, h3]

/-- Previously displayed context. -/
def cfPrevDemo : ConversationFlow := ⟨"balance_inquiry", 9 / 10, []⟩

/-- High-confidence bot message, slot filling active. -/
def botHighDemo : BotMessage := ⟨some "transfer", 19 / 20, [], true, ["target_account"], []⟩

/-- Same classification fields, different slot-filling fields. -/
def botHighDemo2 : BotMessage :=
  ⟨some "transfer", 19 / 20, [], false, [], [("amount", "5000")]⟩

theorem conversation_context_update_policy_witness :
    updateConversationFlow (some cfPrevDemo) botHighDemo =
      some ⟨botHighDemo.intent.getD "", botHighDemo.confidence, botHighDemo.entities⟩ ∧
    updateConversationFlow (some cfPrevDemo) botHighDemo2 =
      updateConversationFlow (some cfPrevDemo) botHighDemo := by
  have h := conversation_context_update_policy (some cfPrevDemo) botHighDemo botHighDemo2
    ⟨rfl, rfl, rfl⟩
  exact ⟨h.1 ⟨by decide, by norm_num [botHighDemo]⟩, h.2.2⟩

/-! ### API client response interceptor (from the frontend api utility) -/

/-- Shape of an axios error as the interceptor reads it. -/
structure ApiError where
  status : Option Nat
  deriving DecidableEq, Repr

/-- Browser-visible state touched by the interceptor. -/
structure Browser where
  storage : List (String × String)
  path : String
  deriving DecidableEq, Repr

/-- The interceptor always re-throws: the promise stays rejected. -/
inductive InterceptOutcome
  | rejected (e : ApiError)
  deriving DecidableEq, Repr

/-- Embedded from the api client response interceptor: a 401 response
removes the persisted `auth-storage` entry and, unless the current path
already starts with `/login`, navigates to `/login`; every error is
returned as a rejected promise. -/
def onResponseError (e : ApiError) (b : Browser) : Browser × InterceptOutcome :=
  if e.status = some 401 then
    let storage2 := b.storage.filter (fun kv => kv.1 != "auth-storage")
    if b.path.startsWith "/login" then (⟨storage2, b.path⟩, InterceptOutcome.rejected e)
    else (⟨storage2, "/login"⟩, InterceptOutcome.rejected e)
  else (b, InterceptOutcome.rejected e)

theorem lookup_filter_ne (l : List (String × String)) (k : String) :
    (l.filter (fun kv => kv.1 != k)).lookup k = none := by
  induction l with
  | nil => rfl
  | cons a t ih =>
    obtain ⟨k1, v1⟩ := a
    by_cases hk : k1 = k
    · simpa [List.filter_cons, hk] using ih
    · have hbeq : (k == k1) = false := beq_eq_false_iff_ne.mpr (Ne.symm hk)
      simp [List.filter_cons, hk, List.lookup, hbeq, ih]

/-- C9: every 401 response clears the persisted `auth-storage` entry and
navigates to `/login` unless the path already starts with `/login`, and the
error is still propagated to the caller as a rejection. -/
theorem unauthorized_clears_auth_and_redirects (e : ApiError) (b : Browser)
    (h : e.status = some 401) :
    (onResponseError e b).1.storage.lookup "auth-storage" = none ∧
    (b.path.startsWith "/login" = false → (onResponseError e b).1.path = "/login") ∧
    (b.path.startsWith "/login" = true → (onResponseError e b).1.path = b.path) ∧
    (onResponseError e b).2 = InterceptOutcome.rejected e := by
  unfold onResponseError
  rw [if_pos h]
  by_cases hp : b.path.startsWith "/login" = true
  · rw [if_pos hp]
    exact ⟨lookup_filter_ne b.storage _, fun hq => absurd hp (by simp [hq]),
      fun _ => rfl, rfl⟩
  · rw [if_neg hp]
    exact ⟨lookup_filter_ne b.storage _, fun _ => rfl,
      fun hq => absurd hq hp, rfl⟩

/-- A failed request carrying HTTP status 401. -/
def err401Demo : ApiError := ⟨some 401⟩

/-- Browser on the chat page with a persisted session. -/
def browserDemo : Browser :=
  ⟨[("auth-storage", "token-payload"), ("theme", "dark")], "/chat/42"⟩

theorem unauthorized_clears_auth_and_redirects_witness :
    (onResponseError err401Demo browserDemo).1.storage.lookup "auth-storage" = none ∧
    (browserDemo.path.startsWith "/login" = false →
      (onResponseError err401Demo browserDemo).1.path = "/login") ∧
    (browserDemo.path.startsWith "/login" = true →
      (onResponseError err401Demo browserDemo).1.path = browserDemo.path) ∧
    (onResponseError err401Demo browserDemo).2 = InterceptOutcome.rejected err401Demo :=
  unauthorized_clears_auth_and_redirects err401Demo browserDemo rfl

/-! ### Route guards (from `App.jsx`) -/

/-- Stored authentication state read by the router. -/
structure AuthState where
  token : Option String
  role : Option String
  deriving DecidableEq, Repr

/-- Pages the router can render. -/
inductive Page
  | loginPage
  | registerPage
  | userDashboard
  | chatWindow
  | adminDashboard
  | intentRecognizer
  deriving DecidableEq, Repr

/-- A route either renders a page or redirects. -/
inductive RouteOutcome
  | render (p : Page)
  | redirect (path : String)
  deriving DecidableEq, Repr

/-- Embedded from `App.jsx`: redirect used by the `/` and catch-all
routes. -/
def homeRedirect (a : AuthState) : RouteOutcome :=
  if jsTruthyStr a.token then
    if a.role = some "admin" then RouteOutcome.redirect "/admin/dashboard"
    else RouteOutcome.redirect "/dashboard"
  else RouteOutcome.redirect "/login"

/-- Embedded from `App.jsx`: the route table with its `Protected`,
`AdminOnly` and `UserOnly` guards. -/
def renderRoute (a : AuthState) (path : String) : RouteOutcome :=
  if path = "/login" then
    if jsTruthyStr a.token then
      if a.role = some "admin" then RouteOutcome.redirect "/admin/dashboard"
      else RouteOutcome.redirect "/dashboard"
    else RouteOutcome.render Page.loginPage
  else if path = "/register" then
    if jsTruthyStr a.token then
      if a.role = some "admin" then RouteOutcome.redirect "/admin/dashboard"
      else RouteOutcome.redirect "/dashboard"
    else RouteOutcome.render Page.registerPage
  else if path = "/dashboard" then
    if jsTruthyStr a.token = true ∧ a.role = some "user" then
      RouteOutcome.render Page.userDashboard
    else RouteOutcome.redirect "/login"
  else if path = "/chat" ∨ path = "/chat/:sessionId" then
    if jsTruthyStr a.token then RouteOutcome.render Page.chatWindow
    else RouteOutcome.redirect "/login"
  else if path = "/admin/dashboard" then
    if jsTruthyStr a.token = true ∧ a.role = some "admin" then
      RouteOutcome.render Page.adminDashboard
    else RouteOutcome.redirect "/dashboard"
  else if path = "/admin/intent-recognizer" then
    if jsTruthyStr a.token = true ∧ a.role = some "admin" then
      RouteOutcome.render Page.intentRecognizer
    else RouteOutcome.redirect "/dashboard"
  else homeRedirect a

/-- Follow client-side redirects up to a fuel bound. -/
def resolveRoute : Nat → AuthState → String → RouteOutcome
  | 0, a, p => renderRoute a p
  | n + 1, a, p =>
    match renderRoute a p with
    | RouteOutcome.render pg => RouteOutcome.render pg
    | RouteOutcome.redirect q => resolveRoute n a q

/-- C10: the admin dashboard and intent-recognizer pages render only with a
token and the admin role; with a token but a non-admin role the admin
routes redirect to `/dashboard`; with no token every protected route ends
at the login page after following redirects. -/
theorem admin_route_access (a : AuthState) (path : String) :
    (renderRoute a path = RouteOutcome.render Page.adminDashboard ∨
       renderRoute a path = RouteOutcome.render Page.intentRecognizer →
      jsTruthyStr a.token = true ∧ a.role = some "admin") ∧
    (jsTruthyStr a.token = true ∧ a.role = some "admin" →
      renderRoute a "/admin/dashboard" = RouteOutcome.render Page.adminDashboard ∧
      renderRoute a "/admin/intent-recognizer" =
        RouteOutcome.render Page.intentRecognizer) ∧
    (jsTruthyStr a.token = true ∧ a.role ≠ some "admin" →
      renderRoute a "/admin/dashboard" = RouteOutcome.redirect "/dashboard" ∧
      renderRoute a "/admin/intent-recognizer" = RouteOutcome.redirect "/dashboard") ∧
    (jsTruthyStr a.token = false →
      ∀ p ∈ ["/dashboard", "/chat", "/chat/:sessionId",
             "/admin/dashboard", "/admin/intent-recognizer"],
        resolveRoute 4 a p = RouteOutcome.render Page.loginPage) := by
  refine ⟨?_, ?_, ?_, ?_⟩
  · intro h
    unfold renderRoute homeRedirect at h
    split_ifs at h <;> simp_all
  · rintro ⟨ht, hr⟩
    constructor <;> simp [renderRoute, ht, hr]
  · rintro ⟨ht, hr⟩
    constructor <;> simp [renderRoute, ht, hr]
  · intro ht p hp
    simp only [List.mem_cons, List.not_mem_nil, or_false] at hp
    rcases hp with rfl | rfl | rfl | rfl | rfl <;>
      simp [resolveRoute, renderRoute, homeRedirect, ht]

end Bank
